import Mathlib

set_option maxRecDepth 8192

/-!
Shallow embedding of the blackijecky repository (protocol.py, server.py,
client.py) and verification of its specification claims.

Conventions of the embedding:
* Python `bytes` values are `List Nat` with every element < 256.
* Python `str` values are lists of Unicode scalar values (`List Nat`);
  encoding/decoding between the two goes through a faithful model of
  UTF-8 with the `ignore` error handler (CPython skips maximal subparts).
* Fallible Python code (functions that may `raise`, or that return `None`)
  is modelled with `Option`.
* The shuffled deck of `build_deck` is passed in pop order: Python pops
  from the end of the shuffled list, so a run of the engine on a shuffled
  list `l` corresponds to running the model on `l.reverse`; quantifying
  over all permutations of the base deck covers both orders.
-/

namespace Blackijecky

/-! ## protocol.py: constants -/

/-- MAGIC_COOKIE = 0xabcddcba, as the 4 big-endian bytes produced by `!I`. -/
def cookieBytes : List Nat := [0xab, 0xcd, 0xdc, 0xba]

def MSG_TYPE_OFFER : Nat := 0x2
def MSG_TYPE_REQUEST : Nat := 0x3
def MSG_TYPE_PAYLOAD : Nat := 0x4

def TEAM_NAME_LEN : Nat := 32

def RESULT_NOT_OVER : Nat := 0x0
def RESULT_TIE : Nat := 0x1
def RESULT_LOSS : Nat := 0x2
def RESULT_WIN : Nat := 0x3

/-- DECISION_HIT = b"Hittt". -/
def DECISION_HIT : List Nat := [72, 105, 116, 116, 116]

/-- DECISION_STAND = b"Stand". -/
def DECISION_STAND : List Nat := [83, 116, 97, 110, 100]

/-! ## protocol.py: card values -/

/-- `card_value(rank)`: ace is always 11, 2..10 is the rank, faces are 10. -/
def card_value (rank : Nat) : Nat :=
  if rank = 1 then 11
  else if 2 ≤ rank ∧ rank ≤ 10 then rank
  else 10

/-- A card is a (rank, suit) pair. -/
abbrev Card := Nat × Nat

/-- `hand_sum(hand)`: sum of the card values of the ranks in a hand. -/
def hand_sum (hand : List Card) : Nat :=
  (hand.map (fun c => card_value c.1)).sum

/-! ## server.py: decide_result -/

/-- `decide_result(player_sum, dealer_sum)` from server.py. -/
def decide_result (player_sum dealer_sum : Nat) : Nat :=
  if player_sum > 21 then RESULT_LOSS
  else if dealer_sum > 21 then RESULT_WIN
  else if player_sum > dealer_sum then RESULT_WIN
  else if player_sum < dealer_sum then RESULT_LOSS
  else RESULT_TIE

theorem card_value_ge_two (r : Nat) : 2 ≤ card_value r := by
  unfold card_value; split
  · omega
  · split <;> omega

theorem card_value_le_eleven (r : Nat) : card_value r ≤ 11 := by
  unfold card_value; split
  · omega
  · split <;> omega

theorem hand_sum_append (h₁ h₂ : List Card) :
    hand_sum (h₁ ++ h₂) = hand_sum h₁ + hand_sum h₂ := by
  simp [hand_sum]

theorem hand_sum_ge_two_mul (h : List Card) : 2 * h.length ≤ hand_sum h := by
  induction h with
  | nil => simp [hand_sum]
  | cons c t ih =>
    have := card_value_ge_two c.1
    simp only [hand_sum, List.map_cons, List.sum_cons, List.length_cons] at *
    omega

theorem hand_sum_le_eleven_mul (h : List Card) : hand_sum h ≤ 11 * h.length := by
  induction h with
  | nil => simp [hand_sum]
  | cons c t ih =>
    have := card_value_le_eleven c.1
    simp only [hand_sum, List.map_cons, List.sum_cons, List.length_cons] at *
    omega

/-! ## UTF-8 model (CPython `utf-8` codec with the `ignore` error handler)

Encoding maps Unicode scalar values to bytes; decoding skips maximal
subparts of ill-formed sequences, exactly as CPython's `ignore` handler
does, and drops a truncated sequence at end of input. -/

/-- A Unicode scalar value: a code point that is not a surrogate. -/
def validScalar (c : Nat) : Prop := c < 0x110000 ∧ ¬(0xd800 ≤ c ∧ c ≤ 0xdfff)

instance (c : Nat) : Decidable (validScalar c) := by
  unfold validScalar; infer_instance

/-- UTF-8 encoding of one scalar value. -/
def utf8EncodeChar (c : Nat) : List Nat :=
  if c < 0x80 then [c]
  else if c < 0x800 then [0xc0 + c / 64, 0x80 + c % 64]
  else if c < 0x10000 then [0xe0 + c / 4096, 0x80 + c / 64 % 64, 0x80 + c % 64]
  else [0xf0 + c / 262144, 0x80 + c / 4096 % 64, 0x80 + c / 64 % 64, 0x80 + c % 64]

/-- `str.encode("utf-8")` on a list of scalar values. -/
def utf8Encode (s : List Nat) : List Nat := s.flatMap utf8EncodeChar

/-- Lower bound for the second byte of a three-byte sequence. -/
def cont3lo (b1 : Nat) : Nat := if b1 = 0xe0 then 0xa0 else 0x80

/-- Upper bound for the second byte of a three-byte sequence. -/
def cont3hi (b1 : Nat) : Nat := if b1 = 0xed then 0x9f else 0xbf

/-- Lower bound for the second byte of a four-byte sequence. -/
def cont4lo (b1 : Nat) : Nat := if b1 = 0xf0 then 0x90 else 0x80

/-- Upper bound for the second byte of a four-byte sequence. -/
def cont4hi (b1 : Nat) : Nat := if b1 = 0xf4 then 0x8f else 0xbf

/-- One step of the UTF-8 decoder: from a non-empty byte list, either decode
one well-formed sequence (returning the scalar and the remaining bytes) or
skip one ill-formed maximal subpart (returning no scalar and the bytes at
which decoding resumes; a truncated sequence at end of input is dropped). -/
def utf8Step : List Nat → Option Nat × List Nat
  | [] => (none, [])
  | b1 :: r1 =>
    if b1 < 0x80 then (some b1, r1)
    else if 0xc2 ≤ b1 ∧ b1 ≤ 0xdf then
      match r1 with
      | [] => (none, [])
      | b2 :: r2 =>
        if 0x80 ≤ b2 ∧ b2 ≤ 0xbf then (some ((b1 - 0xc0) * 64 + (b2 - 0x80)), r2)
        else (none, b2 :: r2)
    else if 0xe0 ≤ b1 ∧ b1 ≤ 0xef then
      match r1 with
      | [] => (none, [])
      | b2 :: r2 =>
        if cont3lo b1 ≤ b2 ∧ b2 ≤ cont3hi b1 then
          match r2 with
          | [] => (none, [])
          | b3 :: r3 =>
            if 0x80 ≤ b3 ∧ b3 ≤ 0xbf then
              (some ((b1 - 0xe0) * 4096 + (b2 - 0x80) * 64 + (b3 - 0x80)), r3)
            else (none, b3 :: r3)
        else (none, b2 :: r2)
    else if 0xf0 ≤ b1 ∧ b1 ≤ 0xf4 then
      match r1 with
      | [] => (none, [])
      | b2 :: r2 =>
        if cont4lo b1 ≤ b2 ∧ b2 ≤ cont4hi b1 then
          match r2 with
          | [] => (none, [])
          | b3 :: r3 =>
            if 0x80 ≤ b3 ∧ b3 ≤ 0xbf then
              match r3 with
              | [] => (none, [])
              | b4 :: r4 =>
                if 0x80 ≤ b4 ∧ b4 ≤ 0xbf then
                  (some ((b1 - 0xf0) * 262144 + (b2 - 0x80) * 4096 + (b3 - 0x80) * 64 +
                    (b4 - 0x80)), r4)
                else (none, b4 :: r4)
            else (none, b3 :: r3)
        else (none, b2 :: r2)
    else (none, r1)

theorem utf8Step_len (b : Nat) (l : List Nat) :
    ((utf8Step (b :: l)).2).length ≤ l.length := by
  unfold utf8Step
  repeat' split
  all_goals simp_all
  all_goals omega

theorem utf8Step_len_of_eq (b : Nat) (l rest : List Nat) (oc : Option Nat)
    (h : utf8Step (b :: l) = (oc, rest)) : rest.length < (b :: l).length := by
  have hl := utf8Step_len b l
  rw [h] at hl
  simp only [List.length_cons] at hl ⊢
  omega

/-- The decoder loop, with the input length as structural fuel so that the
kernel can evaluate it. -/
def utf8DecodeAux : Nat → List Nat → List Nat
  | _, [] => []
  | 0, _ :: _ => []
  | fuel + 1, b :: r =>
    match utf8Step (b :: r) with
    | (some c, rest) => c :: utf8DecodeAux fuel rest
    | (none, rest) => utf8DecodeAux fuel rest

theorem utf8DecodeAux_congr (f1 : Nat) : ∀ (f2 : Nat) (l : List Nat),
    l.length ≤ f1 → l.length ≤ f2 → utf8DecodeAux f1 l = utf8DecodeAux f2 l := by
  induction f1 with
  | zero =>
    intro f2 l h1 h2
    cases l with
    | nil => cases f2 <;> rfl
    | cons b r => simp at h1
  | succ f ih =>
    intro f2 l h1 h2
    cases l with
    | nil => cases f2 <;> rfl
    | cons b r =>
      cases f2 with
      | zero => simp at h2
      | succ f2 =>
        show (match utf8Step (b :: r) with
          | (some c, rest) => c :: utf8DecodeAux f rest
          | (none, rest) => utf8DecodeAux f rest) =
          (match utf8Step (b :: r) with
          | (some c, rest) => c :: utf8DecodeAux f2 rest
          | (none, rest) => utf8DecodeAux f2 rest)
        rcases hstep : utf8Step (b :: r) with ⟨oc, rest⟩
        have hlt := utf8Step_len_of_eq b r rest oc hstep
        simp only [List.length_cons] at hlt h1 h2
        cases oc with
        | none => exact ih f2 rest (by omega) (by omega)
        | some c => exact congrArg (c :: ·) (ih f2 rest (by omega) (by omega))

/-- `bytes.decode("utf-8", errors="ignore")`. -/
def utf8DecodeIgnore (l : List Nat) : List Nat := utf8DecodeAux l.length l

theorem utf8DecodeIgnore_step_some (b : Nat) (r : List Nat) (c : Nat) (rest : List Nat)
    (h : utf8Step (b :: r) = (some c, rest)) :
    utf8DecodeIgnore (b :: r) = c :: utf8DecodeIgnore rest := by
  have hlt := utf8Step_len_of_eq b r rest _ h
  simp only [List.length_cons] at hlt
  unfold utf8DecodeIgnore
  have h1 : utf8DecodeAux (b :: r).length (b :: r) =
      match utf8Step (b :: r) with
      | (some c, rest) => c :: utf8DecodeAux r.length rest
      | (none, rest) => utf8DecodeAux r.length rest := rfl
  rw [h1, h]
  exact congrArg (c :: ·) (utf8DecodeAux_congr r.length rest.length rest (by omega) le_rfl)

theorem utf8DecodeIgnore_step_none (b : Nat) (r : List Nat) (rest : List Nat)
    (h : utf8Step (b :: r) = (none, rest)) :
    utf8DecodeIgnore (b :: r) = utf8DecodeIgnore rest := by
  have hlt := utf8Step_len_of_eq b r rest _ h
  simp only [List.length_cons] at hlt
  unfold utf8DecodeIgnore
  have h1 : utf8DecodeAux (b :: r).length (b :: r) =
      match utf8Step (b :: r) with
      | (some c, rest) => c :: utf8DecodeAux r.length rest
      | (none, rest) => utf8DecodeAux r.length rest := rfl
  rw [h1, h]
  exact utf8DecodeAux_congr r.length rest.length rest (by omega) le_rfl

theorem utf8_decode_cons_one (b : Nat) (rest : List Nat) (hb : b < 0x80) :
    utf8DecodeIgnore (b :: rest) = b :: utf8DecodeIgnore rest := by
  apply utf8DecodeIgnore_step_some
  unfold utf8Step
  simp [hb]

theorem utf8_decode_cons_two (b1 b2 : Nat) (rest : List Nat)
    (h1 : 0xc2 ≤ b1) (h2 : b1 ≤ 0xdf) (h3 : 0x80 ≤ b2) (h4 : b2 ≤ 0xbf) :
    utf8DecodeIgnore (b1 :: b2 :: rest) =
      ((b1 - 0xc0) * 64 + (b2 - 0x80)) :: utf8DecodeIgnore rest := by
  have hno : ¬ b1 < 0x80 := by omega
  apply utf8DecodeIgnore_step_some
  unfold utf8Step
  simp [hno, h1, h2, h3, h4]

theorem utf8_decode_cons_three (b1 b2 b3 : Nat) (rest : List Nat)
    (h1 : 0xe0 ≤ b1) (h2 : b1 ≤ 0xef) (h3 : cont3lo b1 ≤ b2) (h4 : b2 ≤ cont3hi b1)
    (h5 : 0x80 ≤ b3) (h6 : b3 ≤ 0xbf) :
    utf8DecodeIgnore (b1 :: b2 :: b3 :: rest) =
      ((b1 - 0xe0) * 4096 + (b2 - 0x80) * 64 + (b3 - 0x80)) :: utf8DecodeIgnore rest := by
  have hno : ¬ b1 < 0x80 := by omega
  have hno2 : ¬ (0xc2 ≤ b1 ∧ b1 ≤ 0xdf) := by omega
  apply utf8DecodeIgnore_step_some
  unfold utf8Step
  simp [hno, hno2, h1, h2, h3, h4, h5, h6]

theorem utf8_decode_cons_four (b1 b2 b3 b4 : Nat) (rest : List Nat)
    (h1 : 0xf0 ≤ b1) (h2 : b1 ≤ 0xf4) (h3 : cont4lo b1 ≤ b2) (h4 : b2 ≤ cont4hi b1)
    (h5 : 0x80 ≤ b3) (h6 : b3 ≤ 0xbf) (h7 : 0x80 ≤ b4) (h8 : b4 ≤ 0xbf) :
    utf8DecodeIgnore (b1 :: b2 :: b3 :: b4 :: rest) =
      ((b1 - 0xf0) * 262144 + (b2 - 0x80) * 4096 + (b3 - 0x80) * 64 +
        (b4 - 0x80)) :: utf8DecodeIgnore rest := by
  have hno : ¬ b1 < 0x80 := by omega
  have hno2 : ¬ (0xc2 ≤ b1 ∧ b1 ≤ 0xdf) := by omega
  have hno3 : ¬ (0xe0 ≤ b1 ∧ b1 ≤ 0xef) := by omega
  apply utf8DecodeIgnore_step_some
  unfold utf8Step
  simp [hno, hno2, hno3, h1, h2, h3, h4, h5, h6, h7, h8]

theorem utf8_decode_encode_char (c : Nat) (h : validScalar c) (rest : List Nat) :
    utf8DecodeIgnore (utf8EncodeChar c ++ rest) = c :: utf8DecodeIgnore rest := by
  obtain ⟨hlt, hsur⟩ := h
  unfold utf8EncodeChar
  by_cases h1 : c < 0x80
  · simp only [if_pos h1, List.cons_append, List.nil_append]
    exact utf8_decode_cons_one c rest h1
  · by_cases h2 : c < 0x800
    · simp only [if_neg h1, if_pos h2, List.cons_append, List.nil_append]
      rw [utf8_decode_cons_two _ _ _ (by omega) (by omega) (by omega) (by omega)]
      congr 1
      omega
    · by_cases h3 : c < 0x10000
      · simp only [if_neg h1, if_neg h2, if_pos h3, List.cons_append, List.nil_append]
        rw [utf8_decode_cons_three _ _ _ _ (by omega) (by omega)
          (by unfold cont3lo; split <;> omega)
          (by unfold cont3hi; split <;> omega) (by omega) (by omega)]
        congr 1
        omega
      · simp only [if_neg h1, if_neg h2, if_neg h3, List.cons_append, List.nil_append]
        rw [utf8_decode_cons_four _ _ _ _ _ (by omega) (by omega)
          (by unfold cont4lo; split <;> omega)
          (by unfold cont4hi; split <;> omega) (by omega) (by omega) (by omega) (by omega)]
        congr 1
        omega

/-- Decoding inverts encoding on lists of Unicode scalar values. -/
theorem utf8_decode_encode (s : List Nat) (h : ∀ c ∈ s, validScalar c) :
    utf8DecodeIgnore (utf8Encode s) = s := by
  induction s with
  | nil => rfl
  | cons c t ih =>
    have hc : validScalar c := h c (by simp)
    have ht : ∀ x ∈ t, validScalar x := fun x hx => h x (by simp [hx])
    simp only [utf8Encode, List.flatMap_cons] at *
    rw [utf8_decode_encode_char c hc, ih ht]

theorem utf8EncodeChar_ne_zero (c : Nat) (hc : c ≠ 0) :
    ∀ b ∈ utf8EncodeChar c, b ≠ 0 := by
  intro b hb
  unfold utf8EncodeChar at hb
  split at hb
  · simp at hb; omega
  · split at hb
    · simp at hb; rcases hb with h | h <;> omega
    · split at hb
      · simp at hb; rcases hb with h | h | h <;> omega
      · simp at hb; rcases hb with h | h | h | h <;> omega

theorem utf8EncodeChar_length_pos (c : Nat) : 0 < (utf8EncodeChar c).length := by
  unfold utf8EncodeChar
  split
  · simp
  · split
    · simp
    · split <;> simp

/-! ## Python string helpers -/

/-- `str.isspace` for a single code point (the exact CPython set, which is
also the separator set of no-argument `str.split` and of `str.strip`). -/
def isPySpace (c : Nat) : Bool :=
  (9 ≤ c && c ≤ 13) || (28 ≤ c && c ≤ 32) || c == 133 || c == 160 ||
    c == 0x1680 || (0x2000 ≤ c && c ≤ 0x200a) || c == 0x2028 || c == 0x2029 ||
    c == 0x202f || c == 0x205f || c == 0x3000

/-- `str.strip()`: drop whitespace from both ends. -/
def pyStrip (s : List Nat) : List Nat :=
  ((s.dropWhile isPySpace).reverse.dropWhile isPySpace).reverse

/-- `str.rstrip("\x00")`: drop trailing NUL characters. -/
def rstripNul (s : List Nat) : List Nat :=
  (s.reverse.dropWhile (fun c => c == 0)).reverse

/-- `str.split()[0]` guarded against IndexError: the first maximal run of
non-whitespace characters, if any. -/
def firstTokenWs : List Nat → Option (List Nat)
  | [] => none
  | c :: rest =>
    if isPySpace c then firstTokenWs rest
    else some ((c :: rest).takeWhile (fun x => !isPySpace x))

/-- The zero of each block of ten consecutive Unicode decimal digits
(category Nd, Unicode 14.0, the table CPython 3.11 ships): every decimal
digit is `z + v` for exactly one listed `z` and one value `v` in 0..9. -/
def ndZeros : List Nat :=
  [0x0030, 0x0660, 0x06f0, 0x07c0, 0x0966, 0x09e6, 0x0a66, 0x0ae6, 0x0b66,
   0x0be6, 0x0c66, 0x0ce6, 0x0d66, 0x0de6, 0x0e50, 0x0ed0, 0x0f20, 0x1040,
   0x1090, 0x17e0, 0x1810, 0x1946, 0x19d0, 0x1a80, 0x1a90, 0x1b50, 0x1bb0,
   0x1c40, 0x1c50, 0xa620, 0xa8d0, 0xa900, 0xa9d0, 0xa9f0, 0xaa50, 0xabf0,
   0xff10, 0x104a0, 0x10d30, 0x11066, 0x110f0, 0x11136, 0x111d0, 0x112f0,
   0x11450, 0x114d0, 0x11650, 0x116c0, 0x11730, 0x118e0, 0x11950, 0x11c50,
   0x11d50, 0x11da0, 0x16a60, 0x16ac0, 0x16b50, 0x1d7ce, 0x1d7d8, 0x1d7e2,
   0x1d7ec, 0x1d7f6, 0x1e140, 0x1e2f0, 0x1e950, 0x1fbf0]

/-- Value of a Unicode decimal digit, as accepted by Python's `int`: any
code point of category Nd, whose value is its offset in its block. -/
def digitVal (c : Nat) : Option Nat :=
  match ndZeros.find? (fun z => decide (z ≤ c) && decide (c ≤ z + 9)) with
  | some z => some (c - z)
  | none => none

/-- Digits of an integer literal after the first one; a single underscore is
allowed between digits, as in Python's `int`. -/
def digitsRest : List Nat → Nat → Option Nat
  | [], acc => some acc
  | c :: rest, acc =>
    if c = 95 then
      match rest with
      | [] => none
      | d :: rest2 =>
        match digitVal d with
        | some v => digitsRest rest2 (acc * 10 + v)
        | none => none
    else
      match digitVal c with
      | some v => digitsRest rest (acc * 10 + v)
      | none => none

/-- Nonempty run of decimal digits (with internal underscores). -/
def parseUnsigned : List Nat → Option Nat
  | [] => none
  | c :: rest =>
    match digitVal c with
    | some v => digitsRest rest v
    | none => none

/-- `int(s)` on a whitespace-free token: optional sign, then decimal digits;
`none` models the `ValueError`. -/
def pyIntParse (s : List Nat) : Option Int :=
  match s with
  | [] => none
  | c :: rest =>
    if c = 43 then (parseUnsigned rest).map (fun n => (n : Int))
    else if c = 45 then (parseUnsigned rest).map (fun n => -(n : Int))
    else (parseUnsigned (c :: rest)).map (fun n => (n : Int))

/-- Lists that are genuine byte strings. -/
def isBytes (l : List Nat) : Prop := ∀ b ∈ l, b < 256

/-! ## protocol.py: message records -/

structure Offer where
  tcp_port : Nat
  server_name : List Nat
  deriving DecidableEq, Repr

structure Request where
  rounds : Nat
  client_name : List Nat
  deriving DecidableEq, Repr

structure ServerPayload where
  result : Nat
  rank : Nat
  suit : Nat
  deriving DecidableEq, Repr

/-! ## protocol.py: codec -/

/-- `_encode_name`: UTF-8 encode, truncate to 32 bytes, zero-pad to 32. -/
def _encode_name (name : List Nat) : List Nat :=
  let b := (utf8Encode name).take TEAM_NAME_LEN
  b ++ List.replicate (TEAM_NAME_LEN - b.length) 0

/-- `_decode_name`: prefix up to the first zero byte, decoded permissively. -/
def _decode_name (raw32 : List Nat) : List Nat :=
  utf8DecodeIgnore (raw32.takeWhile (fun b => b != 0))

/-- `pack_offer`; `none` models the `ValueError` raised on a bad port. -/
def pack_offer (tcp_port : Nat) (server_name : List Nat) : Option (List Nat) :=
  if tcp_port ≤ 65535 then
    some (cookieBytes ++ [MSG_TYPE_OFFER, tcp_port / 256, tcp_port % 256] ++
      _encode_name server_name)
  else none

/-- `unpack_offer`. -/
def unpack_offer (data : List Nat) : Option Offer :=
  if data.length = 39 then
    if data.take 4 = cookieBytes ∧ data.getD 4 0 = MSG_TYPE_OFFER then
      some ⟨data.getD 5 0 * 256 + data.getD 6 0, _decode_name (data.drop 7)⟩
    else none
  else none

/-- `pack_request`; `none` models the `ValueError` raised on bad rounds. -/
def pack_request (rounds : Nat) (client_name : List Nat) : Option (List Nat) :=
  if 1 ≤ rounds ∧ rounds ≤ 255 then
    some (cookieBytes ++ [MSG_TYPE_REQUEST, rounds] ++ _encode_name client_name)
  else none

/-- `unpack_request`. -/
def unpack_request (data : List Nat) : Option Request :=
  if data.length = 38 then
    if data.take 4 = cookieBytes ∧ data.getD 4 0 = MSG_TYPE_REQUEST then
      some ⟨data.getD 5 0, _decode_name (data.drop 6)⟩
    else none
  else none

/-- `pack_payload_decision`; `none` models the `ValueError` on bad length. -/
def pack_payload_decision (decision5 : List Nat) : Option (List Nat) :=
  if decision5.length = 5 then
    some (cookieBytes ++ [MSG_TYPE_PAYLOAD] ++ decision5)
  else none

/-- `unpack_payload_decision`: returns the raw 5-byte payload. -/
def unpack_payload_decision (data : List Nat) : Option (List Nat) :=
  if data.length = 10 then
    if data.take 4 = cookieBytes ∧ data.getD 4 0 = MSG_TYPE_PAYLOAD then
      some (data.drop 5)
    else none
  else none

/-- `pack_payload_card`; `none` models the `ValueError` on a bad field. -/
def pack_payload_card (result rank suit : Nat) : Option (List Nat) :=
  if result ≤ 3 then
    if 1 ≤ rank ∧ rank ≤ 13 then
      if suit ≤ 3 then
        some (cookieBytes ++ [MSG_TYPE_PAYLOAD, result, rank / 256, rank % 256, suit])
      else none
    else none
  else none

/-- `unpack_payload_card`: validates result, rank and suit ranges. -/
def unpack_payload_card (data : List Nat) : Option ServerPayload :=
  if data.length = 9 then
    if data.take 4 = cookieBytes ∧ data.getD 4 0 = MSG_TYPE_PAYLOAD then
      let result := data.getD 5 0
      let rank := data.getD 6 0 * 256 + data.getD 7 0
      let suit := data.getD 8 0
      if result ≤ 3 ∧ 1 ≤ rank ∧ rank ≤ 13 ∧ suit ≤ 3 then
        some ⟨result, rank, suit⟩
      else none
    else none
  else none

/-! ## server.py: deck and round engine

The deck argument is the shuffled deck in pop order (Python pops from the
end of its shuffled list). Incoming 10-byte gameplay blocks are a list of
byte strings; an exhausted list models `recv_exact` returning `None`
(disconnect or timeout). -/

def SUITS : List Nat := [0, 1, 2, 3]

def RANKS : List Nat := List.range' 1 13

/-- The deck of `build_deck` before shuffling. -/
def build_deck_base : List Card :=
  SUITS.flatMap (fun s => RANKS.map (fun r => (r, s)))

/-- Result of `play_one_round`: `done` models `return True`, `dropped`
models `return False` (peer gone), `deckEmpty` models the `IndexError`
that `deck.pop()` would raise on an empty deck. Each carries the
CardMessages sent so far and the final hands. -/
inductive RoundOut where
  | deckEmpty (msgs : List ServerPayload)
  | dropped (msgs : List ServerPayload) (player dealer : List Card)
  | done (msgs : List ServerPayload) (player dealer : List Card)
  deriving DecidableEq, Repr

/-- The dealer draw loop of `play_one_round` (draws until ≥ 17 or bust). -/
def dealerLoop : List Card → List Card → Nat → List Card → List ServerPayload → RoundOut
  | [], _, _, _, acc => .deckEmpty acc
  | card :: deck, dealer, p_sum, player, acc =>
    let dealer2 := dealer ++ [card]
    let dealer_sum := hand_sum dealer2
    if dealer_sum > 21 then
      .done (acc ++ [⟨RESULT_WIN, card.1, card.2⟩]) player dealer2
    else if 17 ≤ dealer_sum then
      .done (acc ++ [⟨decide_result p_sum dealer_sum, card.1, card.2⟩]) player dealer2
    else
      dealerLoop deck dealer2 p_sum player (acc ++ [⟨RESULT_NOT_OVER, card.1, card.2⟩])

/-- The dealer turn of `play_one_round`: reveal the hidden card, stand at
once if the two-card total is already ≥ 17, else enter the draw loop. -/
def dealerTurn (deck : List Card) (dealer : List Card) (p_sum : Nat)
    (player : List Card) (acc : List ServerPayload) : RoundOut :=
  let hidden := dealer.getD 1 (0, 0)
  let dealer_sum := hand_sum dealer
  if 17 ≤ dealer_sum then
    .done (acc ++ [⟨decide_result p_sum dealer_sum, hidden.1, hidden.2⟩]) player dealer
  else
    dealerLoop deck dealer p_sum player (acc ++ [⟨RESULT_NOT_OVER, hidden.1, hidden.2⟩])

/-- The player turn of `play_one_round`: read 10-byte blocks; blocks whose
decode is not one of the two decisions are skipped; HIT draws a card and
either busts (LOSS, round over) or continues; STAND hands over to the
dealer turn. -/
def playerTurn : List (List Nat) → List Card → List Card → List Card →
    List ServerPayload → RoundOut
  | [], _, player, dealer, acc => .dropped acc player dealer
  | raw :: rest, deck, player, dealer, acc =>
    let decision := unpack_payload_decision raw
    if decision ≠ some DECISION_HIT ∧ decision ≠ some DECISION_STAND then
      playerTurn rest deck player dealer acc
    else if decision = some DECISION_HIT then
      match deck with
      | [] => .deckEmpty acc
      | card :: deck2 =>
        let player2 := player ++ [card]
        let p_sum := hand_sum player2
        if p_sum > 21 then
          .done (acc ++ [⟨RESULT_LOSS, card.1, card.2⟩]) player2 dealer
        else
          playerTurn rest deck2 player2 dealer (acc ++ [⟨RESULT_NOT_OVER, card.1, card.2⟩])
    else
      dealerTurn deck dealer (hand_sum player) player acc

/-- `play_one_round`: initial deal of 2 player cards and 2 dealer cards,
three NOT_OVER CardMessages, then the player turn. -/
def playOneRound (msgsIn : List (List Nat)) (deck : List Card) : RoundOut :=
  match deck with
  | c1 :: c2 :: c3 :: c4 :: deck2 =>
    playerTurn msgsIn deck2 [c1, c2] [c3, c4]
      [⟨RESULT_NOT_OVER, c1.1, c1.2⟩, ⟨RESULT_NOT_OVER, c2.1, c2.2⟩,
        ⟨RESULT_NOT_OVER, c3.1, c3.2⟩]
  | _ => .deckEmpty []

/-! ## server.py: handshake -/

/-- The name recorded by the textual handshake fallback. -/
def UnknownTextClient : List Nat :=
  [85, 110, 107, 110, 111, 119, 110, 84, 101, 120, 116, 67, 108, 105, 101, 110, 116]

/-- The read loop of the text fallback, with the stream length as
structural fuel so that the kernel can evaluate it. -/
def textLoopAux : Nat → List Nat → List Nat → List Nat
  | _, text, [] => text
  | 0, text, _ :: _ => text
  | fuel + 1, text, b :: rest =>
    if 10 ∈ text ∨ 128 ≤ text.length then text
    else textLoopAux fuel (text ++ utf8DecodeIgnore ((b :: rest).take 32)) ((b :: rest).drop 32)

/-- The `while "\n" not in text and len(text) < 128` read loop of the text
fallback; the stream is the bytes the peer still has to send, chunks of up
to 32 bytes are read and decoded chunk-wise. -/
def textLoop (text : List Nat) (stream : List Nat) : List Nat :=
  textLoopAux stream.length text stream

/-- `parse_request_binary_or_text` over the connection's byte stream: a
stream shorter than 38 bytes models `recv_exact` failing. -/
def parse_request_binary_or_text (stream : List Nat) : Option (Nat × List Nat) :=
  if stream.length < 38 then none
  else
    match unpack_request (stream.take 38) with
    | some req => some (req.rounds, req.client_name)
    | none =>
      match firstTokenWs (pyStrip (textLoop (utf8DecodeIgnore (stream.take 38))
          (stream.drop 38))) with
      | none => none
      | some tok =>
        match pyIntParse tok with
        | none => none
        | some n => if 1 ≤ n ∧ n ≤ 255 then some (n.toNat, UnknownTextClient) else none

/-! ## client.py: discovery listener -/

/-- PREFERRED_SERVER_NAME = "Blackijecky - server". -/
def PREFERRED_SERVER_NAME : List Nat :=
  [66, 108, 97, 99, 107, 105, 106, 101, 99, 107, 121, 32, 45, 32,
    115, 101, 114, 118, 101, 114]

/-- PREFERRED_WAIT_SECONDS = 3.0, in milliseconds. -/
def preferredWaitMs : Nat := 3000

/-- `_normalize_server_name` on the `str` produced by `unpack_offer`:
trim trailing NULs, then strip whitespace. -/
def _normalize_server_name (server_name : List Nat) : List Nat :=
  pyStrip (rstripNul server_name)

/-- An observable event of the discovery loop: a datagram arriving from a
source, or `recvfrom` timing out with the given elapsed time since start. -/
inductive UEvent where
  | dgram (data : List Nat) (src : Nat)
  | tmo (elapsedMs : Nat)
  deriving DecidableEq, Repr

/-- The value `wait_for_offer` returns: source address, TCP port and
normalized server name. -/
structure FoundOffer where
  src : Nat
  tcp_port : Nat
  server_name : List Nat
  deriving DecidableEq, Repr

/-- `wait_for_offer` over a trace of events, carrying the `first_any`
fallback state; `none` means the loop is still blocked when the trace
ends. -/
def wait_for_offer : List UEvent → Option FoundOffer → Option FoundOffer
  | [], _ => none
  | .tmo t :: rest, first_any =>
    match first_any with
    | some f => if preferredWaitMs ≤ t then some f else wait_for_offer rest (some f)
    | none => wait_for_offer rest none
  | .dgram data src :: rest, first_any =>
    match unpack_offer data with
    | none => wait_for_offer rest first_any
    | some offer =>
      let name := _normalize_server_name offer.server_name
      let fa := match first_any with
        | none => some (⟨src, offer.tcp_port, name⟩ : FoundOffer)
        | some f => some f
      if name = PREFERRED_SERVER_NAME then some ⟨src, offer.tcp_port, name⟩
      else wait_for_offer rest fa

/-! ## Name field lemmas -/

theorem encode_name_length (name : List Nat) : (_encode_name name).length = 32 := by
  unfold _encode_name TEAM_NAME_LEN
  simp only [List.length_append, List.length_take, List.length_replicate]
  omega

theorem utf8Encode_ne_zero (name : List Nat) (h0 : 0 ∉ name) :
    ∀ b ∈ utf8Encode name, b ≠ 0 := by
  intro b hb
  unfold utf8Encode at hb
  rw [List.mem_flatMap] at hb
  obtain ⟨c, hc, hbc⟩ := hb
  exact utf8EncodeChar_ne_zero c (fun h => h0 (h ▸ hc)) b hbc

theorem takeWhile_replicate_zero (k : Nat) :
    (List.replicate k 0).takeWhile (fun b => b != 0) = ([] : List Nat) := by
  cases k <;> simp [List.replicate_succ, List.takeWhile]

theorem decode_encode_name (name : List Nat) (hv : ∀ c ∈ name, validScalar c)
    (h0 : 0 ∉ name) (hlen : (utf8Encode name).length ≤ TEAM_NAME_LEN) :
    _decode_name (_encode_name name) = name := by
  unfold _decode_name _encode_name
  rw [List.take_of_length_le hlen]
  rw [List.takeWhile_append_of_pos
    (by intro x hx; simpa using utf8Encode_ne_zero name h0 x hx)]
  rw [takeWhile_replicate_zero, List.append_nil]
  exact utf8_decode_encode name hv

/-! ## Claim C3: decide_result is total and follows the precedence table -/

/-- C3: `decide_result` is a total function of (player_sum, dealer_sum): for
all natural-number inputs it returns exactly one of WIN, LOSS, TIE, in this
precedence: player_sum > 21 gives LOSS; else dealer_sum > 21 gives WIN;
else player_sum > dealer_sum gives WIN; player_sum < dealer_sum gives LOSS;
equal gives TIE. -/
theorem decide_result_total_precedence (p d : Nat) :
    (decide_result p d = RESULT_WIN ∨ decide_result p d = RESULT_LOSS ∨
      decide_result p d = RESULT_TIE) ∧
    (21 < p → decide_result p d = RESULT_LOSS) ∧
    (p ≤ 21 → 21 < d → decide_result p d = RESULT_WIN) ∧
    (p ≤ 21 → d ≤ 21 → d < p → decide_result p d = RESULT_WIN) ∧
    (p ≤ 21 → d ≤ 21 → p < d → decide_result p d = RESULT_LOSS) ∧
    (p ≤ 21 → d ≤ 21 → p = d → decide_result p d = RESULT_TIE) := by
  unfold decide_result RESULT_WIN RESULT_LOSS RESULT_TIE
  refine ⟨?_, ?_, ?_, ?_, ?_, ?_⟩ <;> (intros; repeat' split) <;> omega

theorem decide_result_total_precedence_witness :
    decide_result 21 20 = RESULT_WIN :=
  (decide_result_total_precedence 21 20).2.2.2.1 (by decide) (by decide) (by decide)

/-! ## Claim C1: what the decode functions reject (corrected)

The four decode functions reject wrong length, wrong cookie and wrong type,
and `unpack_payload_card` additionally rejects out-of-range fields; but
`unpack_request` does not range-check rounds (it accepts the byte 0), and
`unpack_payload_decision` returns any 5-byte payload without comparing it
against the two decision patterns. -/

/-- C1 counterexample: a 38-byte request with rounds byte 0 (outside 1..255)
is accepted by `unpack_request`, and a well-framed decision payload equal to
none of the two patterns is accepted by `unpack_payload_decision`. -/
theorem unpack_range_check_counterexample :
    unpack_request (cookieBytes ++ [3, 0] ++ List.replicate 32 0) =
      some ⟨0, []⟩ ∧
    unpack_payload_decision (cookieBytes ++ [4, 88, 88, 88, 88, 88]) =
      some [88, 88, 88, 88, 88] ∧
    ¬ (1 ≤ (0 : Nat) ∧ (0 : Nat) ≤ 255) ∧
    [88, 88, 88, 88, 88] ≠ DECISION_HIT ∧
    [88, 88, 88, 88, 88] ≠ DECISION_STAND := by
  refine ⟨by decide, by decide, by decide, by decide, by decide⟩

/-- C1 (amended): every decode function returns invalid on wrong length,
wrong cookie or wrong type tag, and `unpack_payload_card` also returns
invalid when result, rank or suit is out of its declared range; no range
check is performed by `unpack_request` or `unpack_payload_decision`. -/
theorem decode_rejects_malformed (data : List Nat) :
    (data.length ≠ 39 → unpack_offer data = none) ∧
    (data.take 4 ≠ cookieBytes → unpack_offer data = none) ∧
    (data.getD 4 0 ≠ MSG_TYPE_OFFER → unpack_offer data = none) ∧
    (data.length ≠ 38 → unpack_request data = none) ∧
    (data.take 4 ≠ cookieBytes → unpack_request data = none) ∧
    (data.getD 4 0 ≠ MSG_TYPE_REQUEST → unpack_request data = none) ∧
    (data.length ≠ 10 → unpack_payload_decision data = none) ∧
    (data.take 4 ≠ cookieBytes → unpack_payload_decision data = none) ∧
    (data.getD 4 0 ≠ MSG_TYPE_PAYLOAD → unpack_payload_decision data = none) ∧
    (data.length ≠ 9 → unpack_payload_card data = none) ∧
    (data.take 4 ≠ cookieBytes → unpack_payload_card data = none) ∧
    (data.getD 4 0 ≠ MSG_TYPE_PAYLOAD → unpack_payload_card data = none) ∧
    (¬ (data.getD 5 0 ≤ 3 ∧ 1 ≤ data.getD 6 0 * 256 + data.getD 7 0 ∧
        data.getD 6 0 * 256 + data.getD 7 0 ≤ 13 ∧ data.getD 8 0 ≤ 3) →
      unpack_payload_card data = none) := by
  unfold unpack_offer unpack_request unpack_payload_decision unpack_payload_card
  refine ⟨?_, ?_, ?_, ?_, ?_, ?_, ?_, ?_, ?_, ?_, ?_, ?_, ?_⟩ <;>
    (intro h; repeat' split) <;> simp_all

theorem decode_rejects_malformed_witness :
    unpack_offer [1, 2, 3] = none ∧ unpack_request [1, 2, 3] = none ∧
    unpack_payload_decision [1, 2, 3] = none ∧ unpack_payload_card [1, 2, 3] = none :=
  ⟨(decode_rejects_malformed [1, 2, 3]).1 (by decide),
   (decode_rejects_malformed [1, 2, 3]).2.2.2.1 (by decide),
   (decode_rejects_malformed [1, 2, 3]).2.2.2.2.2.2.1 (by decide),
   (decode_rejects_malformed [1, 2, 3]).2.2.2.2.2.2.2.2.2.1 (by decide)⟩

/-! ## Claim C2: decode after encode (corrected)

Round-trip holds for all four message kinds provided the name contains no
NUL character; a name containing NUL is truncated by `_decode_name` even
though its UTF-8 encoding fits in 32 bytes. -/

theorem unpack_offer_eval (a b : Nat) (enc : List Nat) (h : enc.length = 32) :
    unpack_offer (cookieBytes ++ [MSG_TYPE_OFFER, a, b] ++ enc) =
      some ⟨a * 256 + b, _decode_name enc⟩ := by
  unfold unpack_offer cookieBytes MSG_TYPE_OFFER
  simp [List.cons_append, List.getD, h, List.take, List.drop]

theorem unpack_request_eval (rounds : Nat) (enc : List Nat) (h : enc.length = 32) :
    unpack_request (cookieBytes ++ [MSG_TYPE_REQUEST, rounds] ++ enc) =
      some ⟨rounds, _decode_name enc⟩ := by
  unfold unpack_request cookieBytes MSG_TYPE_REQUEST
  simp [List.cons_append, List.getD, h, List.take, List.drop]

/-- C2 counterexample: the Offer (5000, "\x00") is valid in the claim's
sense (port in range, UTF-8 name of 1 byte ≤ 32), but decoding its encoding
yields the empty name, not the original. -/
theorem roundtrip_nul_counterexample :
    (utf8Encode [0]).length ≤ 32 ∧
    (pack_offer 5000 [0]).bind unpack_offer = some ⟨5000, []⟩ ∧
    some (Offer.mk 5000 []) ≠ some (Offer.mk 5000 [0]) := by
  refine ⟨by decide, by decide, by decide⟩

/-- C2 (amended): for every valid constructed message of the four wire
kinds whose name (if any) moreover contains no NUL character, decoding the
encoding returns the original fields. -/
theorem decode_encode_roundtrip :
    (∀ port name, port ≤ 65535 → (∀ c ∈ name, validScalar c) → 0 ∉ name →
      (utf8Encode name).length ≤ 32 →
      (pack_offer port name).bind unpack_offer = some ⟨port, name⟩) ∧
    (∀ rounds name, 1 ≤ rounds → rounds ≤ 255 → (∀ c ∈ name, validScalar c) →
      0 ∉ name → (utf8Encode name).length ≤ 32 →
      (pack_request rounds name).bind unpack_request = some ⟨rounds, name⟩) ∧
    (∀ d5, d5 = DECISION_HIT ∨ d5 = DECISION_STAND →
      (pack_payload_decision d5).bind unpack_payload_decision = some d5) ∧
    (∀ result rank suit, result ≤ 3 → 1 ≤ rank → rank ≤ 13 → suit ≤ 3 →
      (pack_payload_card result rank suit).bind unpack_payload_card =
        some ⟨result, rank, suit⟩) := by
  refine ⟨?_, ?_, ?_, ?_⟩
  · intro port name hp hv h0 hl
    unfold pack_offer
    rw [if_pos hp, Option.some_bind,
      unpack_offer_eval _ _ _ (encode_name_length name),
      decode_encode_name name hv h0 hl]
    have : port / 256 * 256 + port % 256 = port := by omega
    rw [this]
  · intro rounds name h1 h2 hv h0 hl
    unfold pack_request
    rw [if_pos ⟨h1, h2⟩, Option.some_bind,
      unpack_request_eval _ _ (encode_name_length name),
      decode_encode_name name hv h0 hl]
  · rintro d5 (rfl | rfl) <;> decide
  · intro result rank suit h1 h2 h3 h4
    unfold pack_payload_card
    rw [if_pos h1, if_pos ⟨h2, h3⟩, if_pos h4, Option.some_bind]
    unfold unpack_payload_card cookieBytes MSG_TYPE_PAYLOAD
    have : rank / 256 * 256 + rank % 256 = rank := by omega
    simp [List.cons_append, List.getD, List.take, this]
    omega

theorem decode_encode_roundtrip_witness :
    (pack_request 7 [66]).bind unpack_request = some ⟨7, [66]⟩ :=
  decode_encode_roundtrip.2.1 7 [66] (by decide) (by decide) (by decide)
    (by decide) (by decide)

/-! ## Claim C5: HIT handling in PLAYER_TURN -/

/-- The 10-byte wire form of a HIT decision. -/
def hitRaw : List Nat := cookieBytes ++ [MSG_TYPE_PAYLOAD] ++ DECISION_HIT

/-- The 10-byte wire form of a STAND decision. -/
def standRaw : List Nat := cookieBytes ++ [MSG_TYPE_PAYLOAD] ++ DECISION_STAND

/-- C5: on a HIT during PLAYER_TURN the engine draws one card, appends it to
the player hand, recomputes the sum under the value rule (ace = 11,
2..10 = rank, face = 10); on a bust it sends CardMessage(LOSS) with that
card and ends the round with the dealer hand untouched, otherwise it sends
CardMessage(NOT_OVER) with that card and stays in PLAYER_TURN. -/
theorem playerTurn_hit (raw : List Nat) (rest : List (List Nat)) (c : Card)
    (deck2 player dealer : List Card) (acc : List ServerPayload)
    (hraw : unpack_payload_decision raw = some DECISION_HIT) :
    playerTurn (raw :: rest) (c :: deck2) player dealer acc =
      (if 21 < hand_sum (player ++ [c]) then
        RoundOut.done (acc ++ [⟨RESULT_LOSS, c.1, c.2⟩]) (player ++ [c]) dealer
      else
        playerTurn rest deck2 (player ++ [c]) dealer
          (acc ++ [⟨RESULT_NOT_OVER, c.1, c.2⟩])) ∧
    hand_sum (player ++ [c]) = hand_sum player + card_value c.1 ∧
    card_value 1 = 11 ∧ (∀ r, 2 ≤ r → r ≤ 10 → card_value r = r) ∧
    (∀ r, 11 ≤ r → r ≤ 13 → card_value r = 10) := by
  refine ⟨?_, ?_, rfl, ?_, ?_⟩
  · simp [playerTurn, hraw]
  · simp [hand_sum_append, hand_sum]
  · intro r h1 h2
    unfold card_value
    rw [if_neg (by omega), if_pos ⟨h1, h2⟩]
  · intro r h1 h2
    unfold card_value
    rw [if_neg (by omega), if_neg (by omega)]

theorem playerTurn_hit_witness :
    playerTurn [hitRaw] [(13, 0)] [(10, 0), (2, 1)] [(5, 2), (9, 3)] [] =
      RoundOut.done [⟨RESULT_LOSS, 13, 0⟩] [(10, 0), (2, 1), (13, 0)] [(5, 2), (9, 3)] := by
  have h := (playerTurn_hit hitRaw [] (13, 0) [] [(10, 0), (2, 1)] [(5, 2), (9, 3)] []
    (by decide)).1
  rw [if_pos (by decide)] at h
  simpa using h

/-! ## Claim C9: malformed gameplay messages (corrected)

A malformed 10-byte block during PLAYER_TURN does not abort the
connection: the engine skips it and keeps listening, exactly as it does
for an unrecognized decision payload. -/

/-- C9 counterexample: a malformed block (all zero bytes, so the decode
reports invalid) is followed by a STAND; the engine does not abort — it
plays the round to its normal end. -/
theorem malformed_ignored_counterexample :
    unpack_payload_decision (List.replicate 10 0) = none ∧
    playerTurn [List.replicate 10 0, standRaw] [(6, 0)]
        [(10, 0), (9, 1)] [(10, 2), (9, 3)] [] =
      RoundOut.done [⟨RESULT_TIE, 9, 3⟩] [(10, 0), (9, 1)] [(10, 2), (9, 3)] := by
  refine ⟨by decide, by decide⟩

/-- C9 (amended): a received 10-byte block that fails decode validation is
ignored during PLAYER_TURN — the engine state is unchanged and the round
continues with the following messages. -/
theorem malformed_block_ignored (raw : List Nat) (rest : List (List Nat))
    (deck player dealer : List Card) (acc : List ServerPayload)
    (h : unpack_payload_decision raw = none) :
    playerTurn (raw :: rest) deck player dealer acc =
      playerTurn rest deck player dealer acc := by
  simp [playerTurn, h]

theorem malformed_block_ignored_witness :
    playerTurn [List.replicate 10 7] [] [] [] [] = playerTurn [] [] [] [] [] :=
  malformed_block_ignored (List.replicate 10 7) [] [] [] [] [] (by decide)

/-! ## Claim C6: deck contents and dealing without replacement -/

/-- The dealt cards of a round outcome are pairwise distinct (vacuous for
the unreachable deck-exhaustion outcome). -/
def dealtNodup : RoundOut → Prop
  | .deckEmpty _ => True
  | .dropped _ player dealer => (player ++ dealer).Nodup
  | .done _ player dealer => (player ++ dealer).Nodup

theorem nodup_hands_of_append (player dealer deck : List Card)
    (h : (player ++ dealer ++ deck).Nodup) : (player ++ dealer).Nodup :=
  h.sublist (List.sublist_append_left (player ++ dealer) deck)

/-- Unfolded form of `dealerTurn`. -/
theorem dealerTurn_eq (deck dealer : List Card) (p_sum : Nat)
    (player : List Card) (acc : List ServerPayload) :
    dealerTurn deck dealer p_sum player acc =
      if 17 ≤ hand_sum dealer then
        RoundOut.done (acc ++ [⟨decide_result p_sum (hand_sum dealer),
          (dealer.getD 1 (0, 0)).1, (dealer.getD 1 (0, 0)).2⟩]) player dealer
      else
        dealerLoop deck dealer p_sum player
          (acc ++ [⟨RESULT_NOT_OVER, (dealer.getD 1 (0, 0)).1,
            (dealer.getD 1 (0, 0)).2⟩]) := rfl

/-- `playerTurn` on a block that is neither decision: skip it. -/
theorem playerTurn_eq_skip (raw : List Nat) (rest : List (List Nat))
    (deck player dealer : List Card) (acc : List ServerPayload)
    (h1 : unpack_payload_decision raw ≠ some DECISION_HIT)
    (h2 : unpack_payload_decision raw ≠ some DECISION_STAND) :
    playerTurn (raw :: rest) deck player dealer acc =
      playerTurn rest deck player dealer acc := by
  simp [playerTurn, h1, h2]

/-- `playerTurn` on a HIT block with an empty deck: the pop raises. -/
theorem playerTurn_eq_hit_nil (raw : List Nat) (rest : List (List Nat))
    (player dealer : List Card) (acc : List ServerPayload)
    (h : unpack_payload_decision raw = some DECISION_HIT) :
    playerTurn (raw :: rest) [] player dealer acc = RoundOut.deckEmpty acc := by
  simp [playerTurn, h]

/-- `playerTurn` on a HIT block with a non-empty deck. -/
theorem playerTurn_eq_hit_cons (raw : List Nat) (rest : List (List Nat))
    (card : Card) (deck2 player dealer : List Card) (acc : List ServerPayload)
    (h : unpack_payload_decision raw = some DECISION_HIT) :
    playerTurn (raw :: rest) (card :: deck2) player dealer acc =
      if 21 < hand_sum (player ++ [card]) then
        RoundOut.done (acc ++ [⟨RESULT_LOSS, card.1, card.2⟩]) (player ++ [card]) dealer
      else
        playerTurn rest deck2 (player ++ [card]) dealer
          (acc ++ [⟨RESULT_NOT_OVER, card.1, card.2⟩]) := by
  simp [playerTurn, h]

/-- `playerTurn` on a STAND block: hand over to the dealer turn. -/
theorem playerTurn_eq_stand (raw : List Nat) (rest : List (List Nat))
    (deck player dealer : List Card) (acc : List ServerPayload)
    (h : unpack_payload_decision raw = some DECISION_STAND) :
    playerTurn (raw :: rest) deck player dealer acc =
      dealerTurn deck dealer (hand_sum player) player acc := by
  simp [playerTurn, h, DECISION_HIT, DECISION_STAND]

theorem dealerLoop_nodup (deck : List Card) : ∀ dealer p_sum player acc,
    (player ++ dealer ++ deck).Nodup →
    dealtNodup (dealerLoop deck dealer p_sum player acc) := by
  induction deck with
  | nil => intro dealer p_sum player acc _; trivial
  | cons card deck2 ih =>
    intro dealer p_sum player acc h
    have h2 : (player ++ (dealer ++ [card]) ++ deck2).Nodup := by
      simpa [List.append_assoc] using h
    simp only [dealerLoop]
    split
    · exact nodup_hands_of_append _ _ _ h2
    · split
      · exact nodup_hands_of_append _ _ _ h2
      · exact ih _ p_sum player _ h2

theorem dealerTurn_nodup (deck dealer : List Card) (p_sum : Nat)
    (player : List Card) (acc : List ServerPayload)
    (h : (player ++ dealer ++ deck).Nodup) :
    dealtNodup (dealerTurn deck dealer p_sum player acc) := by
  rw [dealerTurn_eq]
  split
  · exact nodup_hands_of_append _ _ _ h
  · exact dealerLoop_nodup deck dealer _ player _ h

theorem hit_perm (player dealer deck2 : List Card) (card : Card) :
    (player ++ dealer ++ (card :: deck2)).Perm
      ((player ++ [card]) ++ dealer ++ deck2) := by
  simp only [List.append_assoc, List.singleton_append, List.cons_append,
    List.nil_append]
  exact List.Perm.append_left player List.perm_middle

theorem playerTurn_nodup (msgs : List (List Nat)) : ∀ (deck player dealer : List Card)
    (acc : List ServerPayload), (player ++ dealer ++ deck).Nodup →
    dealtNodup (playerTurn msgs deck player dealer acc) := by
  induction msgs with
  | nil => intro deck player dealer acc h; exact nodup_hands_of_append _ _ _ h
  | cons raw rest ih =>
    intro deck player dealer acc h
    by_cases hH : unpack_payload_decision raw = some DECISION_HIT
    · cases deck with
      | nil => rw [playerTurn_eq_hit_nil raw rest player dealer acc hH]; trivial
      | cons card deck2 =>
        rw [playerTurn_eq_hit_cons raw rest card deck2 player dealer acc hH]
        have h2 := (hit_perm player dealer deck2 card).nodup h
        split
        · exact nodup_hands_of_append _ _ _ h2
        · exact ih deck2 (player ++ [card]) dealer _ h2
    · by_cases hS : unpack_payload_decision raw = some DECISION_STAND
      · rw [playerTurn_eq_stand raw rest deck player dealer acc hS]
        exact dealerTurn_nodup deck dealer _ player acc h
      · rw [playerTurn_eq_skip raw rest deck player dealer acc hH hS]
        exact ih deck player dealer acc h

/-- C6: the deck built by `build_deck` has exactly 52 cards, one of each
(rank, suit) with rank in 1..13 and suit in 0..3, and — whatever the
shuffle — all cards dealt within one round are pairwise distinct. -/
theorem build_deck_cards_distinct :
    build_deck_base.length = 52 ∧ build_deck_base.Nodup ∧
    (∀ r s : Nat, (r, s) ∈ build_deck_base ↔ (1 ≤ r ∧ r ≤ 13 ∧ s ≤ 3)) ∧
    (∀ deck : List Card, deck.Perm build_deck_base → ∀ msgsIn,
      dealtNodup (playOneRound msgsIn deck)) := by
  refine ⟨by decide, by decide, ?_, ?_⟩
  · intro r s
    simp only [build_deck_base, SUITS, RANKS, List.mem_flatMap, List.mem_map,
      List.mem_range']
    constructor
    · rintro ⟨s2, hs2, ⟨r2, ⟨i, hi, rfl⟩, heq⟩⟩
      injection heq with e1 e2
      simp at hs2
      omega
    · intro hr
      refine ⟨s, by simp; omega, r, ⟨r - 1, by omega, by omega⟩, rfl⟩
  · intro deck hperm msgsIn
    have hnd : deck.Nodup := hperm.symm.nodup (by decide)
    rcases deck with _ | ⟨c1, _ | ⟨c2, _ | ⟨c3, _ | ⟨c4, deck2⟩⟩⟩⟩
    · trivial
    · trivial
    · trivial
    · trivial
    · exact playerTurn_nodup msgsIn deck2 [c1, c2] [c3, c4] _ (by simpa using hnd)

theorem build_deck_cards_distinct_witness :
    dealtNodup (playOneRound [] build_deck_base) :=
  build_deck_cards_distinct.2.2.2 build_deck_base (List.Perm.refl _) []

/-! ## Claim C10: the deck is never exhausted within a round -/

theorem dealerLoop_no_deckEmpty (deck : List Card) : ∀ (dealer : List Card)
    (p_sum : Nat) (player : List Card) (acc : List ServerPayload),
    hand_sum dealer < 17 → 17 ≤ hand_sum dealer + 2 * deck.length →
    ∀ m, dealerLoop deck dealer p_sum player acc ≠ RoundOut.deckEmpty m := by
  induction deck with
  | nil =>
    intro dealer p_sum player acc h1 h2 m
    simp only [List.length_nil] at h2
    omega
  | cons card deck2 ih =>
    intro dealer p_sum player acc h1 h2 m
    have hv := card_value_ge_two card.1
    have hsum := hand_sum_append dealer [card]
    simp only [dealerLoop]
    split
    · simp
    · split
      · simp
      · rename_i hbust hstand
        apply ih (dealer ++ [card]) p_sum player _
        · simp only [hand_sum_append] at hstand ⊢
          omega
        · simp only [List.length_cons] at h2
          simp only [hand_sum_append, List.length_cons]
          have : hand_sum [card] = card_value card.1 := by simp [hand_sum]
          omega

theorem dealerTurn_no_deckEmpty (deck dealer : List Card) (p_sum : Nat)
    (player : List Card) (acc : List ServerPayload)
    (h : 17 ≤ 2 * deck.length) :
    ∀ m, dealerTurn deck dealer p_sum player acc ≠ RoundOut.deckEmpty m := by
  intro m
  rw [dealerTurn_eq]
  split
  · simp
  · rename_i hlt
    exact dealerLoop_no_deckEmpty deck dealer p_sum player _ (by omega) (by omega) m

theorem playerTurn_no_deckEmpty (msgs : List (List Nat)) :
    ∀ (deck player dealer : List Card) (acc : List ServerPayload),
    hand_sum player ≤ 22 → 40 ≤ hand_sum player + 2 * deck.length →
    ∀ m, playerTurn msgs deck player dealer acc ≠ RoundOut.deckEmpty m := by
  induction msgs with
  | nil => intro deck player dealer acc h1 h2 m; simp [playerTurn]
  | cons raw rest ih =>
    intro deck player dealer acc h1 h2 m
    by_cases hH : unpack_payload_decision raw = some DECISION_HIT
    · cases deck with
      | nil =>
        exfalso
        simp only [List.length_nil] at h2
        omega
      | cons card deck2 =>
        rw [playerTurn_eq_hit_cons raw rest card deck2 player dealer acc hH]
        have hv := card_value_ge_two card.1
        have hv2 := card_value_le_eleven card.1
        have hs : hand_sum [card] = card_value card.1 := by simp [hand_sum]
        split
        · simp
        · rename_i hnb
          apply ih deck2 (player ++ [card]) dealer _
          · simp only [hand_sum_append] at hnb ⊢
            omega
          · simp only [List.length_cons] at h2
            simp only [hand_sum_append, List.length_cons]
            omega
    · by_cases hS : unpack_payload_decision raw = some DECISION_STAND
      · rw [playerTurn_eq_stand raw rest deck player dealer acc hS]
        exact dealerTurn_no_deckEmpty deck dealer _ player acc (by omega) m
      · rw [playerTurn_eq_skip raw rest deck player dealer acc hH hS]
        exact ih deck player dealer acc h1 h2 m

/-- C10: with a 52-card deck, every `deck.pop()` of a round happens on a
non-empty deck — the round can never raise the deck-exhaustion error,
whatever decisions arrive. -/
theorem playOneRound_deck_never_exhausted (msgsIn : List (List Nat))
    (deck : List Card) (h : deck.length = 52) :
    ∀ m, playOneRound msgsIn deck ≠ RoundOut.deckEmpty m := by
  rcases deck with _ | ⟨c1, _ | ⟨c2, _ | ⟨c3, _ | ⟨c4, deck2⟩⟩⟩⟩ <;>
    simp only [List.length_cons, List.length_nil] at h
  · omega
  · omega
  · omega
  · omega
  · intro m
    have h48 : deck2.length = 48 := by omega
    have hlo := hand_sum_ge_two_mul [c1, c2]
    have hhi := hand_sum_le_eleven_mul [c1, c2]
    simp only [List.length_cons, List.length_nil] at hlo hhi
    unfold playOneRound
    exact playerTurn_no_deckEmpty msgsIn deck2 [c1, c2] [c3, c4] _
      (by omega) (by rw [h48]; omega) m

theorem playOneRound_deck_never_exhausted_witness :
    playOneRound [] build_deck_base ≠ RoundOut.deckEmpty [] :=
  playOneRound_deck_never_exhausted [] build_deck_base (by decide) []

/-! ## Claim C4: dealer draw policy -/

theorem dealerLoop_run (deck : List Card) : ∀ (dealer : List Card) (p_sum : Nat)
    (player : List Card) (acc : List ServerPayload),
    hand_sum dealer < 17 → 17 ≤ hand_sum dealer + 2 * deck.length →
    ∃ (drawn : List Card) (c : Card),
      dealerLoop deck dealer p_sum player acc =
        RoundOut.done
          (acc ++ drawn.map (fun d => (⟨RESULT_NOT_OVER, d.1, d.2⟩ : ServerPayload)) ++
            [⟨if 21 < hand_sum (dealer ++ drawn ++ [c]) then RESULT_WIN
              else decide_result p_sum (hand_sum (dealer ++ drawn ++ [c])), c.1, c.2⟩])
          player (dealer ++ drawn ++ [c]) ∧
      17 ≤ hand_sum (dealer ++ drawn ++ [c]) ∧
      (∀ i, i ≤ drawn.length → hand_sum (dealer ++ (drawn ++ [c]).take i) < 17) := by
  induction deck with
  | nil =>
    intro dealer p_sum player acc h1 h2
    simp only [List.length_nil] at h2
    omega
  | cons card deck2 ih =>
    intro dealer p_sum player acc h1 h2
    have hv := card_value_ge_two card.1
    have hs : hand_sum [card] = card_value card.1 := by simp [hand_sum]
    simp only [dealerLoop]
    by_cases hbust : hand_sum (dealer ++ [card]) > 21
    · rw [if_pos hbust]
      refine ⟨[], card, ?_, ?_, ?_⟩
      · simp only [List.map_nil, List.append_nil, List.nil_append]
        rw [if_pos (by simpa using hbust)]
      · simp only [List.append_nil, List.nil_append]
        omega
      · intro i hi
        have hz : i = 0 := by simpa using hi
        subst hz
        simpa using h1
    · rw [if_neg hbust]
      by_cases hstand : 17 ≤ hand_sum (dealer ++ [card])
      · rw [if_pos hstand]
        refine ⟨[], card, ?_, ?_, ?_⟩
        · simp only [List.map_nil, List.append_nil, List.nil_append]
          rw [if_neg (by simpa using hbust)]
        · simpa using hstand
        · intro i hi
          have hz : i = 0 := by simpa using hi
          subst hz
          simpa using h1
      · rw [if_neg hstand]
        obtain ⟨drawn, c, heq, hfin, hpre⟩ :=
          ih (dealer ++ [card]) p_sum player (acc ++ [⟨RESULT_NOT_OVER, card.1, card.2⟩])
            (by omega)
            (by simp only [hand_sum_append, List.length_cons] at h2 ⊢; omega)
        refine ⟨card :: drawn, c, ?_, ?_, ?_⟩
        · rw [heq]
          simp [List.append_assoc]
        · simpa [List.append_assoc] using hfin
        · intro i hi
          cases i with
          | zero => simpa using h1
          | succ j =>
            have := hpre j (by simpa using hi)
            simpa [List.append_assoc] using this

/-- C4: in every round reaching DEALER_TURN the dealer never stands below
17 and never draws once at least 17 or busted: with the two-card total
already ≥ 17 the round ends on the reveal message carrying the final
result and no draw happens; otherwise the dealer draws until its sum first
exceeds 21 (player WIN) or first reaches 17 (tie-break applied), the last
drawn card's message carries the final result, every earlier draw happens
from a sum below 17, and nothing is drawn afterwards. -/
theorem dealer_turn_policy (deck dealer : List Card) (p_sum : Nat)
    (player : List Card) (acc : List ServerPayload)
    (hlen : dealer.length = 2)
    (hbudget : 17 ≤ hand_sum dealer + 2 * deck.length) :
    (17 ≤ hand_sum dealer →
      dealerTurn deck dealer p_sum player acc =
        RoundOut.done (acc ++ [⟨decide_result p_sum (hand_sum dealer),
          (dealer.getD 1 (0, 0)).1, (dealer.getD 1 (0, 0)).2⟩]) player dealer) ∧
    (hand_sum dealer < 17 →
      ∃ (drawn : List Card) (c : Card),
        dealerTurn deck dealer p_sum player acc =
          RoundOut.done
            (acc ++ ⟨RESULT_NOT_OVER, (dealer.getD 1 (0, 0)).1,
                (dealer.getD 1 (0, 0)).2⟩ ::
              (drawn.map (fun d => (⟨RESULT_NOT_OVER, d.1, d.2⟩ : ServerPayload)) ++
                [⟨if 21 < hand_sum (dealer ++ drawn ++ [c]) then RESULT_WIN
                  else decide_result p_sum (hand_sum (dealer ++ drawn ++ [c])),
                  c.1, c.2⟩]))
            player (dealer ++ drawn ++ [c]) ∧
        17 ≤ hand_sum (dealer ++ drawn ++ [c]) ∧
        (∀ i, i ≤ drawn.length → hand_sum (dealer ++ (drawn ++ [c]).take i) < 17)) := by
  constructor
  · intro hge
    rw [dealerTurn_eq, if_pos hge]
  · intro hlt
    rw [dealerTurn_eq, if_neg (by omega)]
    obtain ⟨drawn, c, heq, hfin, hpre⟩ :=
      dealerLoop_run deck dealer p_sum player
        (acc ++ [⟨RESULT_NOT_OVER, (dealer.getD 1 (0, 0)).1, (dealer.getD 1 (0, 0)).2⟩])
        hlt hbudget
    refine ⟨drawn, c, ?_, hfin, hpre⟩
    rw [heq]
    simp [List.append_assoc]

theorem dealer_turn_policy_witness :
    dealerTurn [(10, 0)] [(9, 0), (9, 1)] 20 [] [] =
      RoundOut.done [⟨decide_result 20 (hand_sum [(9, 0), (9, 1)]), 9, 1⟩]
        [] [(9, 0), (9, 1)] :=
  (dealer_turn_policy [(10, 0)] [(9, 0), (9, 1)] 20 [] [] (by decide)
    (by decide)).1 (by decide)

/-! ## Claim C7: discovery listener selection policy -/

/-- Specification-side helper: the `FoundOffer` a datagram would produce,
if it decodes as an Offer. -/
def offerOf (data : List Nat) (src : Nat) : Option FoundOffer :=
  (unpack_offer data).map
    (fun o => ⟨src, o.tcp_port, _normalize_server_name o.server_name⟩)

/-- Specification-side helper: the first structurally valid Offer in a
trace, from any sender. -/
def firstValidOffer : List UEvent → Option FoundOffer
  | [] => none
  | .dgram d s :: rest =>
    match offerOf d s with
    | some f => some f
    | none => firstValidOffer rest
  | .tmo _ :: rest => firstValidOffer rest

/-- An event on which the loop keeps waiting whatever its state: a datagram
that is not a preferred-name Offer, or a timeout strictly inside the wait
window. -/
def quietEvent (e : UEvent) : Bool :=
  match e with
  | .dgram d _ =>
    match unpack_offer d with
    | some o => _normalize_server_name o.server_name != PREFERRED_SERVER_NAME
    | none => true
  | .tmo t => t < preferredWaitMs

theorem wfo_tmo_fire (t : Nat) (rest : List UEvent) (f : FoundOffer)
    (h : preferredWaitMs ≤ t) :
    wait_for_offer (UEvent.tmo t :: rest) (some f) = some f := by
  simp [wait_for_offer, h]

theorem wfo_tmo_cont (t : Nat) (rest : List UEvent) (f : FoundOffer)
    (h : ¬ preferredWaitMs ≤ t) :
    wait_for_offer (UEvent.tmo t :: rest) (some f) =
      wait_for_offer rest (some f) := by
  simp [wait_for_offer, h]

theorem wfo_dgram_invalid (d : List Nat) (s : Nat) (rest : List UEvent)
    (fa : Option FoundOffer) (h : unpack_offer d = none) :
    wait_for_offer (UEvent.dgram d s :: rest) fa = wait_for_offer rest fa := by
  simp [wait_for_offer, h]

theorem wfo_dgram_pref (d : List Nat) (s : Nat) (rest : List UEvent)
    (fa : Option FoundOffer) (o : Offer) (ho : unpack_offer d = some o)
    (hp : _normalize_server_name o.server_name = PREFERRED_SERVER_NAME) :
    wait_for_offer (UEvent.dgram d s :: rest) fa =
      some ⟨s, o.tcp_port, PREFERRED_SERVER_NAME⟩ := by
  simp [wait_for_offer, ho, hp]

theorem wfo_dgram_nonpref_some (d : List Nat) (s : Nat) (rest : List UEvent)
    (f : FoundOffer) (o : Offer) (ho : unpack_offer d = some o)
    (hnp : _normalize_server_name o.server_name ≠ PREFERRED_SERVER_NAME) :
    wait_for_offer (UEvent.dgram d s :: rest) (some f) =
      wait_for_offer rest (some f) := by
  simp [wait_for_offer, ho, hnp]

theorem wfo_dgram_nonpref_none (d : List Nat) (s : Nat) (rest : List UEvent)
    (o : Offer) (ho : unpack_offer d = some o)
    (hnp : _normalize_server_name o.server_name ≠ PREFERRED_SERVER_NAME) :
    wait_for_offer (UEvent.dgram d s :: rest) none =
      wait_for_offer rest (some ⟨s, o.tcp_port, _normalize_server_name o.server_name⟩) := by
  simp [wait_for_offer, ho, hnp]

theorem wait_for_offer_skips_quiet (pre : List UEvent) : ∀ (rest : List UEvent)
    (fa : Option FoundOffer), (∀ e ∈ pre, quietEvent e = true) →
    wait_for_offer (pre ++ rest) fa =
      wait_for_offer rest
        (match fa with | some f => some f | none => firstValidOffer pre) := by
  induction pre with
  | nil =>
    intro rest fa h
    cases fa <;> rfl
  | cons e pre2 ih =>
    intro rest fa h
    have he : quietEvent e = true := h e (by simp)
    have h2 : ∀ x ∈ pre2, quietEvent x = true := fun x hx => h x (by simp [hx])
    cases e with
    | tmo t =>
      have ht : t < preferredWaitMs := by simpa [quietEvent] using he
      rw [List.cons_append]
      cases fa with
      | none =>
        rw [show wait_for_offer (UEvent.tmo t :: (pre2 ++ rest)) none =
          wait_for_offer (pre2 ++ rest) none from rfl]
        exact ih rest none h2
      | some f =>
        rw [wfo_tmo_cont t _ f (by omega)]
        exact ih rest (some f) h2
    | dgram d s =>
      rw [List.cons_append]
      cases ho : unpack_offer d with
      | none =>
        rw [wfo_dgram_invalid d s _ fa ho, ih rest fa h2]
        cases fa with
        | some f => rfl
        | none => simp [firstValidOffer, offerOf, ho]
      | some o =>
        have hnp : _normalize_server_name o.server_name ≠ PREFERRED_SERVER_NAME := by
          simpa [quietEvent, ho] using he
        cases fa with
        | some f =>
          rw [wfo_dgram_nonpref_some d s _ f o ho hnp]
          exact ih rest (some f) h2
        | none =>
          rw [wfo_dgram_nonpref_none d s _ o ho hnp,
            ih rest (some ⟨s, o.tcp_port, _normalize_server_name o.server_name⟩) h2]
          simp [firstValidOffer, offerOf, ho]

/-- C7: the discovery listener returns a preferred-name Offer immediately
(even when other valid offers arrived first); when the wait window elapses
on a timeout it falls back to the first structurally valid Offer received
from any sender; datagrams failing codec validation are silently discarded
and change nothing (in particular they do not reset the wait window). -/
theorem wait_for_offer_policy :
    (∀ d s rest fa, unpack_offer d = none →
      wait_for_offer (UEvent.dgram d s :: rest) fa = wait_for_offer rest fa) ∧
    (∀ d s rest fa o, unpack_offer d = some o →
      _normalize_server_name o.server_name = PREFERRED_SERVER_NAME →
      wait_for_offer (UEvent.dgram d s :: rest) fa =
        some ⟨s, o.tcp_port, PREFERRED_SERVER_NAME⟩) ∧
    (∀ pre d s rest o, (∀ e ∈ pre, quietEvent e = true) →
      unpack_offer d = some o →
      _normalize_server_name o.server_name = PREFERRED_SERVER_NAME →
      wait_for_offer (pre ++ UEvent.dgram d s :: rest) none =
        some ⟨s, o.tcp_port, PREFERRED_SERVER_NAME⟩) ∧
    (∀ pre t rest f, (∀ e ∈ pre, quietEvent e = true) →
      firstValidOffer pre = some f → preferredWaitMs ≤ t →
      wait_for_offer (pre ++ UEvent.tmo t :: rest) none = some f) := by
  refine ⟨?_, ?_, ?_, ?_⟩
  · exact fun d s rest fa h => wfo_dgram_invalid d s rest fa h
  · exact fun d s rest fa o ho hp => wfo_dgram_pref d s rest fa o ho hp
  · intro pre d s rest o hq ho hp
    rw [wait_for_offer_skips_quiet pre _ none hq]
    exact wfo_dgram_pref d s rest _ o ho hp
  · intro pre t rest f hq hfv ht
    rw [wait_for_offer_skips_quiet pre _ none hq]
    show wait_for_offer (UEvent.tmo t :: rest) (firstValidOffer pre) = some f
    rw [hfv]
    exact wfo_tmo_fire t rest f ht

theorem wait_for_offer_policy_witness :
    wait_for_offer [UEvent.dgram ((pack_offer 5000 [79]).getD []) 1,
      UEvent.tmo 3500] none = some ⟨1, 5000, [79]⟩ :=
  wait_for_offer_policy.2.2.2 [UEvent.dgram ((pack_offer 5000 [79]).getD []) 1]
    3500 [] ⟨1, 5000, [79]⟩ (by decide) (by decide) (by decide)

/-! ## Claim C8: handshake with binary-or-text fallback -/

/-- Specification-side helper: the first whitespace-delimited token of the
text assembled by the fallback's read loop. -/
def fallbackToken (stream : List Nat) : Option (List Nat) :=
  firstTokenWs (pyStrip (textLoop (utf8DecodeIgnore (stream.take 38)) (stream.drop 38)))

/-- C8: on a 38-byte initial block, a strict binary Request decode wins and
supplies rounds and client_name; otherwise the block (plus further read
bytes if needed) is treated as UTF-8 text, and its first
whitespace-delimited token is parsed as an integer: a value in 1..255
yields that round count with the unknown-client marker as name, and a
missing token, unparsable token or out-of-range value yields `None`. -/
theorem parse_request_policy (stream : List Nat) (h : 38 ≤ stream.length) :
    (∀ req, unpack_request (stream.take 38) = some req →
      parse_request_binary_or_text stream = some (req.rounds, req.client_name)) ∧
    (unpack_request (stream.take 38) = none →
      (fallbackToken stream = none → parse_request_binary_or_text stream = none) ∧
      (∀ tok, fallbackToken stream = some tok →
        (pyIntParse tok = none → parse_request_binary_or_text stream = none) ∧
        (∀ n : Int, pyIntParse tok = some n →
          ((1 ≤ n ∧ n ≤ 255) →
            parse_request_binary_or_text stream = some (n.toNat, UnknownTextClient)) ∧
          (¬ (1 ≤ n ∧ n ≤ 255) →
            parse_request_binary_or_text stream = none)))) := by
  constructor
  · intro req hreq
    unfold parse_request_binary_or_text
    rw [if_neg (by omega), hreq]
  · intro hnone
    constructor
    · intro htok
      unfold parse_request_binary_or_text
      rw [if_neg (by omega), hnone]
      unfold fallbackToken at htok
      rw [htok]
    · intro tok htok
      constructor
      · intro hint
        unfold parse_request_binary_or_text
        rw [if_neg (by omega), hnone]
        unfold fallbackToken at htok
        rw [htok]
        show (match pyIntParse tok with
          | none => none
          | some n => if 1 ≤ n ∧ n ≤ 255 then
              some (n.toNat, UnknownTextClient) else none) = none
        rw [hint]
      · intro n hint
        constructor
        · intro hrange
          unfold parse_request_binary_or_text
          rw [if_neg (by omega), hnone]
          unfold fallbackToken at htok
          rw [htok]
          show (match pyIntParse tok with
            | none => none
            | some n => if 1 ≤ n ∧ n ≤ 255 then
                some (n.toNat, UnknownTextClient) else none) =
            some (n.toNat, UnknownTextClient)
          rw [hint]
          exact if_pos hrange
        · intro hrange
          unfold parse_request_binary_or_text
          rw [if_neg (by omega), hnone]
          unfold fallbackToken at htok
          rw [htok]
          show (match pyIntParse tok with
            | none => none
            | some n => if 1 ≤ n ∧ n ≤ 255 then
                some (n.toNat, UnknownTextClient) else none) = none
          rw [hint]
          exact if_neg hrange

theorem parse_request_policy_witness :
    parse_request_binary_or_text ([52, 10] ++ List.replicate 36 32) =
      some (4, UnknownTextClient) ∧
    parse_request_binary_or_text ([0xd9, 0xa4] ++ List.replicate 36 32) =
      some (4, UnknownTextClient) := by
  constructor
  · have h := ((((parse_request_policy ([52, 10] ++ List.replicate 36 32)
      (by decide)).2 (by decide)).2 [52] (by decide)).2 4 (by decide)).1
      (by norm_num)
    simpa using h
  · have h := ((((parse_request_policy ([0xd9, 0xa4] ++ List.replicate 36 32)
      (by decide)).2 (by decide)).2 [0x664] (by decide)).2 4 (by decide)).1
      (by norm_num)
    simpa using h

end Blackijecky
